import Mathlib

/-!
Shallow Lean embedding of the `cargo-template` program (src/src/lib.rs,
src/src/errors.rs, src/src/bin/template.rs), used to check the repository's
natural-language specification against its code.

Conventions of the embedding:
* Filesystem paths are lists of path segments (`Path := List String`);
  `Path::join` is list append.
* Directory trees are the inductive `Fs` (files with contents, directories
  as association lists of named entries, and `special` for entries that are
  neither regular files nor directories).
* Environment variables and the git configuration are read-only oracles
  `String → Option String`.
* Network and filesystem side effects are made explicit as an `Effect`
  trace returned next to each function's result.
* File contents are modelled as `String`s at character granularity (the
  manifests in question are ASCII, so characters coincide with bytes).
* Fallible Rust functions returning `Result<T>` become `Except ErrorKind T`.
-/

namespace CargoTemplate

/-- Path segments; `Path::join` appends a segment. Models `std::path::PathBuf`. -/
abbrev Path := List String

/-- Rendering used for `to_string_lossy` in error payloads. -/
def pathToString : Path → String
  | [] => ""
  | [s] => s
  | s :: rest => s ++ "/" ++ pathToString rest

/-- Error kinds of `src/src/errors.rs` (`error_chain!`): the `errors` block
constructors plus the `foreign_links` (cargo, env-var, git2, io, serde_json). -/
inductive ErrorKind where
  | genericError
  | templateDoesNotExist (t : String)
  | templateNotFound (t : String)
  | sourceDoesNotExist (t : String)
  | userError (t : String)
  | tomlParseError (t : String)
  | existsError (t : String)
  | cargoError
  | varError
  | gitError
  | ioError
  | serdeError
deriving DecidableEq, Repr

/-- Observable side effects (network fetches and filesystem mutations),
recorded as a trace so that temporal claims can be stated. -/
inductive Effect where
  | mkdir (p : Path)
  | gitCloneIndex (url : String)
  | gitCloneTemplate (url : String)
  | copiedTree (srcDescr : String) (dst : Path)
  | wroteManifest (p : Path)
deriving DecidableEq, Repr

/-! ## TOML document model

Model of the external `toml` 0.2 library, restricted to the fragment of
manifests this program manipulates: a top-level table whose values are
strings, arrays of strings, or one-level sub-tables of those.  Tables keep
their keys sorted (the library's `Table` is a `BTreeMap<String, Value>`).
The parser below accepts the line-based fragment `[section]`,
`key = "string"`, `key = ["string", ...]` and blank lines; anything else is
a parse failure (the real parser accepts more, but every document produced
by the modelled serializer is inside this fragment). -/

inductive Toml where
  | str (s : String)
  | arr (ss : List String)
  | table (kvs : List (String × Toml))

/-- Model of `BTreeMap::get`: lookup in a table's association list. -/
def tomlLookup : String → List (String × Toml) → Option Toml
  | _, [] => none
  | k, (k', v) :: rest => if k = k' then some v else tomlLookup k rest

/-- Lexicographic order on character lists (the `Ord` used by
`BTreeMap<String, _>`; on the ASCII manifest keys involved, byte order and
character order coincide). -/
def charListLt : List Char → List Char → Bool
  | [], [] => false
  | [], _ :: _ => true
  | _ :: _, [] => false
  | a :: as, b :: bs =>
    if a.toNat < b.toNat then true
    else if b.toNat < a.toNat then false
    else charListLt as bs

def strLt (a b : String) : Bool := charListLt a.data b.data

/-- Model of `BTreeMap::insert`: sorted insert, replacing an equal key. -/
def tomlInsert : List (String × Toml) → String → Toml → List (String × Toml)
  | [], k, v => [(k, v)]
  | (k', v') :: rest, k, v =>
    if k = k' then (k, v) :: rest
    else if strLt k k' then (k, v) :: (k', v') :: rest
    else (k', v') :: tomlInsert rest k v

def quoteChar : Char := Char.ofNat 34

def backslashChar : Char := Char.ofNat 92

def newlineChar : Char := Char.ofNat 10

def quoteStr (s : String) : String :=
  String.mk (quoteChar :: s.data) ++ String.mk [quoteChar]

def joinSep (sep : String) : List String → String
  | [] => ""
  | [s] => s
  | s :: rest => s ++ sep ++ joinSep sep rest

/-- Inline (right-hand-side) rendering of a value.  A table never appears
inline in the modelled fragment (the serializer only renders tables as
`[section]` blocks), so that arm is unreachable for modelled documents. -/
def serializeInline : Toml → String
  | .str s => quoteStr s
  | .arr ss => "[" ++ joinSep ", " (ss.map quoteStr) ++ "]"
  | .table _ => ""

def isTable : Toml → Bool
  | .table _ => true
  | _ => false

/-- Render the key/value lines of one table. -/
def serializeSection : List (String × Toml) → String
  | [] => ""
  | (k, v) :: rest => k ++ " = " ++ serializeInline v ++ "\n" ++ serializeSection rest

/-- Render the non-table entries of the top-level table (`toml` 0.2 `Display`
emits simple values before sub-tables so the output stays valid TOML). -/
def serializeSimple : List (String × Toml) → String
  | [] => ""
  | (k, v) :: rest =>
    if isTable v then serializeSimple rest
    else k ++ " = " ++ serializeInline v ++ "\n" ++ serializeSimple rest

/-- Render the sub-table entries of the top-level table as `[name]` blocks. -/
def serializeTables : List (String × Toml) → String
  | [] => ""
  | (k, v) :: rest =>
    match v with
    | .table kvs => "[" ++ k ++ "]\n" ++ serializeSection kvs ++ serializeTables rest
    | _ => serializeTables rest

def serializeTop (kvs : List (String × Toml)) : String :=
  serializeSimple kvs ++ serializeTables kvs

/-- Model of `format!("\x7b\x7d", val)` on a `toml::Value`. -/
def serializeVal : Toml → String
  | .table kvs => serializeTop kvs
  | v => serializeInline v

/-! ### TOML parsing (restricted fragment) -/

def isBareKeyChar (c : Char) : Bool :=
  c.isAlphanum || c = '-' || c = '_'

/-- Split character stream into lines at newline characters. -/
def splitLinesAux : List Char → List Char → List (List Char)
  | [], acc => [acc.reverse]
  | c :: rest, acc =>
    if c = newlineChar then acc.reverse :: splitLinesAux rest []
    else splitLinesAux rest (c :: acc)

/-- After an opening quote: the string body up to the closing quote and the
remainder.  Escapes are outside the modelled fragment. -/
def takeStr : List Char → Option (String × List Char)
  | [] => none
  | c :: rest =>
    if c = quoteChar then some ("", rest)
    else if c = backslashChar then none
    else
      match takeStr rest with
      | some (s, rem) => some (String.mk (c :: s.data), rem)
      | none => none

/-- Items of a string array `"a", "b"]`, fuelled by the line length. -/
def parseArrItems : Nat → List Char → Option (List String)
  | 0, _ => none
  | fuel + 1, cs =>
    match cs with
    | c :: rest =>
      if c = quoteChar then
        match takeStr rest with
        | some (s, rem) =>
          match rem with
          | [c'] => if c' = ']' then some [s] else none
          | c' :: ' ' :: more =>
            if c' = ',' then (parseArrItems fuel more).map (fun l => s :: l) else none
          | _ => none
        | none => none
      else none
    | [] => none

def parseValue (cs : List Char) : Option Toml :=
  match cs with
  | c :: rest =>
    if c = quoteChar then
      match takeStr rest with
      | some (s, []) => some (.str s)
      | _ => none
    else if c = '[' then
      match rest with
      | [c'] => if c' = ']' then some (.arr []) else none
      | _ => (parseArrItems (rest.length + 1) rest).map Toml.arr
    else none
  | [] => none

/-- Section-header body: bare-key characters terminated by `]` at end of line. -/
def takeSection : List Char → Option String
  | [] => none
  | c :: rest =>
    if c = ']' then (if rest = [] then some "" else none)
    else if isBareKeyChar c then (takeSection rest).map (fun s => String.mk (c :: s.data))
    else none

/-- Longest bare-key prefix and the remainder of the line. -/
def takeKey : List Char → String × List Char
  | [] => ("", [])
  | c :: rest =>
    if isBareKeyChar c then
      let (s, r) := takeKey rest
      (String.mk (c :: s.data), r)
    else ("", c :: rest)

inductive TomlLine where
  | blank
  | header (nm : String)
  | kv (k : String) (v : Toml)

def parseKv (cs : List Char) : Option (String × Toml) :=
  match takeKey cs with
  | (k, r) =>
    if k = "" then none
    else
      match r with
      | ' ' :: '=' :: ' ' :: vcs => (parseValue vcs).map (fun v => (k, v))
      | _ => none

def parseTomlLine (cs : List Char) : Option TomlLine :=
  match cs with
  | [] => some .blank
  | c :: rest =>
    if c = '[' then
      match takeSection rest with
      | some nm => if nm = "" then none else some (.header nm)
      | none => none
    else (parseKv cs).map (fun kv => .kv kv.1 kv.2)

/-- Fold parsed lines into the top-level table, tracking the currently open
`[section]` (if any). -/
def buildDoc : List TomlLine → List (String × Toml) →
    Option (String × List (String × Toml)) → List (String × Toml)
  | [], top, none => top
  | [], top, some (nm, sec) => tomlInsert top nm (.table sec)
  | l :: rest, top, cur =>
    match l with
    | .blank => buildDoc rest top cur
    | .header nm2 =>
      match cur with
      | none => buildDoc rest top (some (nm2, []))
      | some (nm, sec) => buildDoc rest (tomlInsert top nm (.table sec)) (some (nm2, []))
    | .kv k v =>
      match cur with
      | none => buildDoc rest (tomlInsert top k v) cur
      | some (nm, sec) => buildDoc rest top (some (nm, tomlInsert sec k v))

/-- Model of `toml::Parser::parse`: `Some(table)` on success, `None` on any error. -/
def parseToml (s : String) : Option (List (String × Toml)) :=
  match (splitLinesAux s.data []).mapM parseTomlLine with
  | none => none
  | some lines => some (buildDoc lines [] none)

/-! ## Manifest rewriting (`format_author`, `write_toml`, `edit_cargo_toml`) -/

/-- Function `format_author` of src/src/lib.rs. -/
def format_author (author_name : String) (author_email : Option String) : String :=
  match author_email with
  | some email => author_name ++ " <" ++ email ++ ">"
  | none => author_name

/-- Function `write_toml` of src/src/lib.rs: the file is opened with
`OpenOptions::new().read(true).write(true)` — read/write, **no truncation** —
and the serialized value is written from position 0.  The resulting file
content is therefore the new text followed by whatever old bytes lie beyond
its length. -/
def write_toml (oldContent : String) (val : Toml) : String :=
  let s := serializeVal val
  s ++ String.mk (oldContent.data.drop s.data.length)

/-- Function `edit_cargo_toml` of src/src/lib.rs, acting on the file's current content
`contents` (the `File::open + read_to_string` step) and returning the new
file content produced through `write_toml`.  `filePath` only feeds the
`to_string_lossy` error payloads. -/
def edit_cargo_toml (filePath : String) (contents : String) (project_name : String)
    (author_name : String) (author_email : Option String) : Except ErrorKind String :=
  match parseToml contents with
  | none => .error (.tomlParseError filePath)
  | some value =>
    match tomlLookup "package" value with
    | some (.table t) =>
      let t1 := tomlInsert t "name" (.str project_name)
      let value1 := tomlInsert value "package" (.table t1)
      match tomlLookup "package" value1 with
      | some (.table t2) =>
        let t3 := tomlInsert t2 "authors"
          (.arr [format_author author_name author_email])
        let value2 := tomlInsert value1 "package" (.table t3)
        .ok (write_toml contents (.table value2))
      | some _ => .error (.tomlParseError filePath)
      | none => .error (.tomlParseError filePath)
    | some _ => .error (.tomlParseError filePath)
    | none => .error (.tomlParseError filePath)

/-! ## Filesystem trees and `copy_dir` -/

/-- A filesystem entry: a regular file with its contents, a directory with
named entries, or `special` for anything that is neither (symlinks, sockets,
…) — the entries src/src/lib.rs logs and skips. -/
inductive Fs where
  | file (content : String)
  | dir (entries : List (String × Fs))
  | special

/-- Lookup of a named entry in a directory listing. -/
def fsLookup : String → List (String × Fs) → Option Fs
  | _, [] => none
  | k, (k', v) :: rest => if k = k' then some v else fsLookup k rest

/-- Store a named entry in a directory listing, replacing an existing one. -/
def upsert : String → Fs → List (String × Fs) → List (String × Fs)
  | k, v, [] => [(k, v)]
  | k, v, (k', v') :: rest =>
    if k = k' then (k, v) :: rest else (k', v') :: upsert k v rest

/-- Model of `ensure_exists` (`DirBuilder::new().recursive(true).create`) applied to a
destination that may or may not exist: creating over an existing directory
succeeds and leaves it alone, creating over a file or special entry fails. -/
def ensureDir : Option Fs → Except ErrorKind (List (String × Fs))
  | none => .ok []
  | some (.dir es) => .ok es
  | some _ => .error .ioError

/-- Test `from.exists() && from.is_dir()` on the modelled source. -/
def isDirFs : Option Fs → Bool
  | some (.dir _) => true
  | _ => false

/-- The entry loop of `copy_dir` (src/src/lib.rs lines 195-217), acting on the
source listing and the current destination listing and returning the
destination listing after the loop together with the first error, if any
(partial copies before the error remain, as in the code).  The recursive
`copy_dir(path, new_to)` call on a sub-directory is inlined: after
`ensure_exists(&new_to)` the recursive call's own source and destination
checks always pass, so it reduces to this same loop on the sub-listing. -/
def copyEntries : List (String × Fs) → List (String × Fs) →
    List (String × Fs) × Option ErrorKind
  | [], acc => (acc, none)
  | (nm, e) :: rest, acc =>
    if nm = ".git" then copyEntries rest acc
    else
      match e with
      | .dir es2 =>
        match fsLookup nm acc with
        | none =>
          let (sub, er) := copyEntries es2 []
          let acc' := upsert nm (.dir sub) acc
          (match er with
           | some e => (acc', some e)
           | none => copyEntries rest acc')
        | some (.dir bs) =>
          let (sub, er) := copyEntries es2 bs
          let acc' := upsert nm (.dir sub) acc
          (match er with
           | some e => (acc', some e)
           | none => copyEntries rest acc')
        | some _ => (acc, some .ioError)
      | .file c =>
        match fsLookup nm acc with
        | some (.dir _) => (acc, some .ioError)
        | some .special => (acc, some .ioError)
        | _ => copyEntries rest (upsert nm (.file c) acc)
      | .special => copyEntries rest acc
termination_by es _ => sizeOf es
decreasing_by all_goals simp_wf <;> omega

/-- Function `copy_dir` of src/src/lib.rs: `fromPath` is the path rendered into the
`SourceDoesNotExist` payload, `src` the source tree (or `none` if the path
does not exist), `dst` the current state of the destination.  Returns the
destination state after the call and the error, if any. -/
def copy_dir (fromPath : Path) (src : Option Fs) (dst : Option Fs) :
    Option Fs × Option ErrorKind :=
  match src with
  | some (.dir es) =>
    match ensureDir dst with
    | .error er => (dst, some er)
    | .ok base =>
      let (res, er) := copyEntries es base
      (some (.dir res), er)
  | _ => (dst, some (.sourceDoesNotExist (pathToString fromPath)))

/-- Modelled from the spec (§4.3): the intended result of `copyTree(from, to)`
— a structural copy of every entry of the source merged over the existing
destination, where any entry literally named `.git` is skipped entirely,
directories are created and recursed into, regular files are copied
byte-for-byte overwriting pre-existing destination files, and entries that
are neither directories nor regular files are skipped. -/
def specMerge : List (String × Fs) → List (String × Fs) → List (String × Fs)
  | [], base => base
  | (nm, e) :: rest, base =>
    if nm = ".git" then specMerge rest base
    else
      match e with
      | .dir es2 =>
        match fsLookup nm base with
        | some (.dir bs) => specMerge rest (upsert nm (.dir (specMerge es2 bs)) base)
        | _ => specMerge rest (upsert nm (.dir (specMerge es2 [])) base)
      | .file c => specMerge rest (upsert nm (.file c) base)
      | .special => specMerge rest base
termination_by es _ => sizeOf es
decreasing_by all_goals simp_wf <;> omega

/-- Structural compatibility of a source listing with a destination listing:
no copied entry runs into a pre-existing destination entry of conflicting
kind (a file or special entry where a directory must be created, or a
directory/special entry where a file must be copied).  These are exactly
the I/O-error cases of the copy loop. -/
def compatEntries : List (String × Fs) → List (String × Fs) → Bool
  | [], _ => true
  | (nm, e) :: rest, base =>
    if nm = ".git" then compatEntries rest base
    else
      match e with
      | .dir es2 =>
        match fsLookup nm base with
        | none =>
          compatEntries es2 [] &&
          compatEntries rest (upsert nm (.dir (specMerge es2 [])) base)
        | some (.dir bs) =>
          compatEntries es2 bs &&
          compatEntries rest (upsert nm (.dir (specMerge es2 bs)) base)
        | some _ => false
      | .file c =>
        match fsLookup nm base with
        | some (.dir _) => false
        | some .special => false
        | _ => compatEntries rest (upsert nm (.file c) base)
      | .special => compatEntries rest base
termination_by es _ => sizeOf es
decreasing_by all_goals simp_wf <;> omega

/-! ## Identity resolution (`get_environment_variable`, `get_name_and_email`) -/

/-- Whitespace as recognized by `str::trim` (restricted to ASCII). -/
def isWsChar (c : Char) : Bool :=
  c = ' ' || c = Char.ofNat 9 || c = Char.ofNat 10 || c = Char.ofNat 13

/-- Model of Rust's `str::trim`: strip leading and trailing whitespace. -/
def strTrim (s : String) : String :=
  String.mk (((s.data.dropWhile isWsChar).reverse.dropWhile isWsChar).reverse)

/-- Function `get_environment_variable` of src/src/lib.rs:
`variables.iter().filter_map(|var| env::var(var).ok()).next()`. -/
def get_environment_variable (vars : List String)
    (env : String → Option String) : Option String :=
  (vars.filterMap env).head?

/-- Function `get_name_and_email` of src/src/lib.rs.  `env` is the process
environment; `gitcfg` is `GitConfig::open_default().ok()` (`none` when no
git configuration could be opened) queried with `get_string`; `windows` is
`cfg!(windows)` (it only selects the variable named in the error message).
The slices `&name_variables[0..3]`, `&name_variables[3..]`,
`&email_variables[0..3]` and `&email_variables[3..]` are written out as the
literal sublists they denote. -/
def get_name_and_email (env : String → Option String)
    (gitcfg : Option (String → Option String)) (windows : Bool) :
    Except ErrorKind (String × Option String) :=
  let name :=
    ((get_environment_variable ["CARGO_NAME", "GIT_AUTHOR_NAME", "GIT_COMMITTER_NAME"]
        env).orElse
      (fun _ => gitcfg.bind (fun g => g "user.name"))).orElse
      (fun _ => get_environment_variable ["USER", "USERNAME", "NAME"] env)
  match name with
  | none => .error (.userError (if windows then "USERNAME" else "USER"))
  | some name =>
    let email :=
      ((get_environment_variable ["CARGO_EMAIL", "GIT_AUTHOR_EMAIL",
          "GIT_COMMITTER_EMAIL"] env).orElse
        (fun _ => gitcfg.bind (fun g => g "user.email"))).orElse
        (fun _ => get_environment_variable ["EMAIL"] env)
    .ok (strTrim name, email.map strTrim)

/-- Modelled from the spec (§4.4): the name precedence chain as the claim
states it — explicit override, version-control author, version-control
committer, the version-control configured user name, then a **single**
platform-appropriate login-name variable (`USERNAME` on Windows, `USER`
elsewhere), then the display-name variable `NAME`. -/
def specIdentityName (env : String → Option String)
    (gitcfg : Option (String → Option String)) (windows : Bool) : Option String :=
  ((((env "CARGO_NAME").orElse (fun _ => env "GIT_AUTHOR_NAME")).orElse
      (fun _ => env "GIT_COMMITTER_NAME")).orElse
      (fun _ => gitcfg.bind (fun g => g "user.name"))).orElse
      (fun _ => (env (if windows then "USERNAME" else "USER")).orElse
        (fun _ => env "NAME"))

/-! ## Index store (`IndexMember`, `IndexIter`, `IndexLoader`, `get_index`) -/

structure IndexMember where
  name : String
  loc : String
deriving DecidableEq, Repr

structure IndexTopLevel where
  index : List IndexMember
deriving DecidableEq, Repr

structure IndexIter where
  next : Nat
  inner : IndexTopLevel
deriving DecidableEq, Repr

/-- Method `IndexIter::next` of src/src/lib.rs: yield the element at the cursor (if
any) and advance the cursor. -/
def IndexIter.step (it : IndexIter) : Option (String × String) × IndexIter :=
  (it.inner.index.get? it.next |>.map (fun el => (el.name, el.loc)),
   ⟨it.next + 1, it.inner⟩)

/-- Draining an iterator (as `Iterator::collect` does): repeatedly call
`next` until it yields `None`.  Fuelled; the fuel used below always
suffices because the cursor only moves forward. -/
def drainIter : Nat → IndexIter → List (String × String)
  | 0, _ => []
  | fuel + 1, it =>
    match it.step with
    | (none, _) => []
    | (some p, it') => p :: drainIter fuel it'

/-- Model of `IndexTopLevel::into_iter().collect::<Vec<_>>()` — the member list as
(name, loc) pairs in file order. -/
def intoIterList (top : IndexTopLevel) : List (String × String) :=
  drainIter (top.index.length + 1) ⟨0, top⟩

/-- Contents of the `HashMap` as an association list (iteration order of the real
`HashMap` is irrelevant to the claims, which are about the mapping). -/
abbrev HMap := List (String × String)

/-- Model of `HashMap::insert`: replace the binding of an existing key, otherwise add
a new one. -/
def hmInsert : HMap → String → String → HMap
  | [], k, v => [(k, v)]
  | (k', v') :: rest, k, v =>
    if k = k' then (k, v) :: rest else (k', v') :: hmInsert rest k v

def hmFind : String → HMap → Option String
  | _, [] => none
  | k, (k', v) :: rest => if k = k' then some v else hmFind k rest

/-- Model of `iter.collect::<HashMap<String, String>>()`: fold the pairs into a map,
later bindings overwriting earlier ones. -/
def collectHashMap (l : List (String × String)) : HMap :=
  l.foldl (fun m p => hmInsert m p.1 p.2) []

/-- Method `IndexLoader::url_to_repo_dir`. -/
def url_to_repo_dir (url : String) : String :=
  ((url.replace ":" "_").replace "/" "_").replace " " "-"

/-- The part of the outside world `get_index` interacts with. -/
structure GitWorld where
  /-- Whether `repo.exists() && repo.is_dir()` holds for the sanitized cache directory. -/
  indexRepoExistsIsDir : Bool
  /-- whether `Repository::clone` of the index source would succeed -/
  cloneSucceeds : Bool
  /-- File `index.json` in the resolved checkout: `none` = `File::open` fails,
  `some none` = opens but `serde_json` fails, `some (some top)` = parses. -/
  indexFile : Option (Option IndexTopLevel)

/-- Method `IndexLoader::update_or_clone` of src/src/lib.rs (with `update_index`
inlined — it is the identity on the cached path).  Returns the result and
the trace of effects; a `gitCloneIndex` effect is the network fetch of
`clone_index`, recorded whether or not the clone succeeds. -/
def update_or_clone (indexPath : Path) (source : String) (frozen : Bool)
    (w : GitWorld) : Except ErrorKind Path × List Effect :=
  let repo := indexPath ++ [url_to_repo_dir source]
  if w.indexRepoExistsIsDir then
    if !frozen then (.ok repo, [])
    else (.ok repo, [])
  else
    if w.cloneSucceeds then (.ok repo, [.gitCloneIndex source])
    else (.error .gitError, [.gitCloneIndex source])

/-- Struct `Config` of src/src/lib.rs. -/
structure Config where
  index : String
  index_path : Path
  templates_path : Path
  resolved_index_path : Option Path

/-- Function `get_index` of src/src/lib.rs.  Note the `if let Ok(p) = ...` — a failed
`update_or_clone` is discarded, leaving `resolved_index_path` as it was, and
the `None` arm then surfaces `ErrorKind::GenericError` (the spec's
`IndexUnavailable`). -/
def get_index (config : Config) (frozen : Bool) (w : GitWorld) :
    Except ErrorKind HMap × Config × List Effect :=
  let (r, eff) := update_or_clone config.index_path config.index frozen w
  let config' :=
    match r with
    | .ok p => { config with resolved_index_path := some p }
    | .error _ => config
  match config'.resolved_index_path with
  | none => (.error .genericError, config', eff)
  | some _ =>
    match w.indexFile with
    | none => (.error .ioError, config', eff)
    | some none => (.error .serdeError, config', eff)
    | some (some top) => (.ok (collectHashMap (intoIterList top)), config', eff)

/-! ## Template store (`get_template`) -/

/-- Function `get_template` of src/src/lib.rs.  `locationExists` is
`location.exists()` for `templates_dir.join(name)`.  When the location is
absent and we are not frozen, `Repository::clone` is attempted and its
result **ignored** (`let _ = ...`); the clone attempt is the
`gitCloneTemplate` effect. -/
def get_template (name : String) (url : String) (templates_dir : Path)
    (frozen : Bool) (locationExists : Bool) :
    Except ErrorKind Path × List Effect :=
  let location := templates_dir ++ [name]
  if !locationExists then
    if frozen then (.error (.templateNotFound name), [])
    else (.ok location, [.gitCloneTemplate url])
  else (.ok location, [])

/-! ## `Config::new` and `main` -/

/-- The whole outside world `main` interacts with. -/
structure World where
  /-- Result of `env::current_dir()` (`none` = it fails) -/
  cwd : Option Path
  /-- Whether `project_dir.exists()` holds for the destination computed from cwd + name -/
  projectDirExists : Bool
  /-- Result of `cargo_config.get_string("template.registry.index")`: `none` = the
  cargo config lookup itself fails, `some x` = it returns `x`. -/
  cargoIndexSetting : Option (Option String)
  /-- Value of `env::var("CARGO_HOME")` -/
  cargoHome : Option String
  /-- Whether `fs::metadata(template)` succeeded and `is_dir()` holds -/
  templateIsLocalDir : Bool
  git : GitWorld
  /-- Whether `location.exists()` holds for `templates_path.join(template)` -/
  templateLocExists : Bool
  /-- the source tree the final copy reads (`none` = path does not exist) -/
  templateTree : Option Fs
  env : String → Option String
  gitcfg : Option (String → Option String)
  windows : Bool

def DEFAULT_INDEX : String := "https://github.com/rusttemplates/templates"

/-- Constructor `Config::new` of src/src/lib.rs: read the registry-index override from
the cargo settings store, fall back to `DEFAULT_INDEX`, then create the
`cargo-template`, `index` and `templates` cache directories under
`CARGO_HOME` (three filesystem mutations, recorded as `mkdir` effects). -/
def Config.new (w : World) : Except ErrorKind Config × List Effect :=
  match w.cargoIndexSetting with
  | none => (.error .cargoError, [])
  | some setting =>
    let index := setting.getD DEFAULT_INDEX
    match w.cargoHome with
    | none => (.error .varError, [])
    | some home =>
      let config_dir : Path := [home, "cargo-template"]
      let index_path := config_dir ++ ["index"]
      let templates_path := config_dir ++ ["templates"]
      (.ok { index := index, index_path := index_path,
             templates_path := templates_path, resolved_index_path := none },
       [.mkdir config_dir, .mkdir index_path, .mkdir templates_path])

/-- Function `find_cargo_toml` of src/src/lib.rs, restricted to the modelled project
tree: every top-level regular file named `Cargo.toml` is rewritten through
`edit_cargo_toml`; errors propagate, and a project without such a file is
silently left alone. -/
def find_cargo_toml (entries : List (String × Fs)) (project_name : String)
    (author_name : String) (author_email : Option String) :
    Except ErrorKind Unit :=
  match entries with
  | [] => .ok ()
  | (nm, e) :: rest =>
    match e with
    | .file c =>
      if nm = "Cargo.toml" then
        match edit_cargo_toml nm c project_name author_name author_email with
        | .error er => .error er
        | .ok _ => find_cargo_toml rest project_name author_name author_email
      else find_cargo_toml rest project_name author_name author_email
    | _ => find_cargo_toml rest project_name author_name author_email

/-- Function `main` of src/src/lib.rs (after clap has produced `frozen`, `template`
and `project_name`), with its observable effects.  The destination
pre-existence check happens before `Config::new` creates any cache
directory, before any index work and before the copy. -/
def main (frozen : Bool) (template project_name : String) (w : World) :
    Except ErrorKind Unit × List Effect :=
  match w.cwd with
  | none => (.error .ioError, [])
  | some cwd =>
    let project_dir := cwd ++ [project_name]
    if w.projectDirExists then
      (.error (.existsError (pathToString project_dir)), [])
    else
      match Config.new w with
      | (.error e, eff) => (.error e, eff)
      | (.ok config, eff1) =>
        let (fromRes, eff2) :=
          if w.templateIsLocalDir then ((.ok [template] : Except ErrorKind Path), [])
          else
            match get_index config frozen w.git with
            | (.error e, _, effI) => (.error e, effI)
            | (.ok index, _, effI) =>
              match hmFind template index with
              | none => (.error (.templateDoesNotExist template), effI)
              | some loc =>
                match get_template template loc config.templates_path frozen
                    w.templateLocExists with
                | (.error e, effT) => (.error e, effI ++ effT)
                | (.ok from_, effT) => (.ok from_, effI ++ effT)
        match fromRes with
        | .error e => (.error e, eff1 ++ eff2)
        | .ok from_ =>
          let (copied, copyErr) := copy_dir from_ w.templateTree none
          let eff3 := eff2 ++ [.copiedTree (pathToString from_) project_dir]
          match copyErr with
          | some e => (.error e, eff1 ++ eff3)
          | none =>
            match get_name_and_email w.env w.gitcfg w.windows with
            | .error e => (.error e, eff1 ++ eff3)
            | .ok (author_name, author_email) =>
              let resEntries :=
                match copied with
                | some (.dir es) => es
                | _ => []
              match find_cargo_toml resEntries project_name author_name author_email with
              | .error e => (.error e, eff1 ++ eff3)
              | .ok _ => (.ok (), eff1 ++ eff3 ++ [.wroteManifest project_dir])

/-! ## Concrete fixtures used by witnesses and counterexamples -/

/-- Does the document have a `package` entry that is a table? -/
def hasPackageTable (kvs : List (String × Toml)) : Bool :=
  match tomlLookup "package" kvs with
  | some (.table _) => true
  | _ => false

/-- A concrete well-formed manifest whose serialization is longer than the
one produced by personalizing it. -/
def manifestSample : String :=
  "[package]\nauthors = [\"Somebody Longname <somebody@example.com>\"]\nname = \"my-very-long-original-project-name\"\n"

/-- The parse of `manifestSample`. -/
def manifestSampleDoc : List (String × Toml) :=
  [("package", .table [("authors", .arr ["Somebody Longname <somebody@example.com>"]),
                       ("name", .str "my-very-long-original-project-name")])]

/-- The `package` table of `manifestSample`. -/
def manifestSamplePkg : List (String × Toml) :=
  [("authors", .arr ["Somebody Longname <somebody@example.com>"]),
   ("name", .str "my-very-long-original-project-name")]

/-- The file content stored after personalizing `manifestSample` with
project name `foo` and identity Ada `<ada@example.com>`. -/
def personalizedSample : String :=
  match edit_cargo_toml "Cargo.toml" manifestSample "foo" "Ada" (some "ada@example.com") with
  | .ok s => s
  | .error _ => ""

/-- A concrete template tree with a regular file, a nested directory, a
`.git` directory and a special entry. -/
def sampleTemplateTree : List (String × Fs) :=
  [("src", .dir [("main.rs", .file "fn main()")]),
   (".git", .dir [("HEAD", .file "ref: master")]),
   ("README.md", .file "readme"),
   ("socket", .special)]

/-- The value of the last binding of a key in an association list (file
order): what "later duplicates overwrite earlier ones" resolves to. -/
def lastFind : String → List (String × String) → Option String
  | _, [] => none
  | k, (k', v) :: rest =>
    match lastFind k rest with
    | some v2 => some v2
    | none => if k = k' then some v else none

/-- An environment in which only the Windows login variable is set. -/
def envUsernameOnly : String → Option String :=
  fun s => if s = "USERNAME" then some "bob" else none

/-- A concrete index membership document with a duplicated name. -/
def sampleIndex : IndexTopLevel :=
  ⟨[⟨"tmpl-a", "urlA"⟩, ⟨"tmpl-b", "urlB"⟩, ⟨"tmpl-a", "urlA2"⟩]⟩

/-- A concrete `Config` as produced by `Config::new` (no resolved index). -/
def sampleConfig : Config :=
  { index := DEFAULT_INDEX
    index_path := ["home", "cargo-template", "index"]
    templates_path := ["home", "cargo-template", "templates"]
    resolved_index_path := none }

/-- A world in which the destination project directory already exists. -/
def sampleWorldExisting : World :=
  { cwd := some ["home"]
    projectDirExists := true
    cargoIndexSetting := some none
    cargoHome := some "home"
    templateIsLocalDir := false
    git := { indexRepoExistsIsDir := true, cloneSucceeds := true, indexFile := none }
    templateLocExists := false
    templateTree := none
    env := fun _ => none
    gitcfg := none
    windows := false }

end CargoTemplate

namespace CargoTemplate

/-! # Theorems -/

/-! ## TOML table lemmas -/

theorem tomlLookup_insert_self (l : List (String × Toml)) (k : String) (v : Toml) :
    tomlLookup k (tomlInsert l k v) = some v := by
  induction l with
  | nil => simp [tomlInsert, tomlLookup]
  | cons p rest ih =>
    obtain ⟨k', v'⟩ := p
    by_cases h : k = k'
    · simp [tomlInsert, h, tomlLookup]
    · by_cases h2 : strLt k k' <;> simp [tomlInsert, h, h2, tomlLookup, ih]

theorem tomlLookup_insert_other (l : List (String × Toml)) (k k2 : String) (v : Toml)
    (h : k2 ≠ k) : tomlLookup k2 (tomlInsert l k v) = tomlLookup k2 l := by
  induction l with
  | nil => simp [tomlInsert, tomlLookup, h]
  | cons p rest ih =>
    obtain ⟨k', v'⟩ := p
    by_cases h1 : k = k'
    · subst h1; simp [tomlInsert, tomlLookup, h]
    · by_cases h2 : strLt k k' <;> simp [tomlInsert, h1, h2, tomlLookup, h, ih]

theorem tomlInsert_insert_same (l : List (String × Toml)) (k : String) (v w : Toml) :
    tomlInsert (tomlInsert l k v) k w = tomlInsert l k w := by
  induction l with
  | nil => simp [tomlInsert]
  | cons p rest ih =>
    obtain ⟨k', v'⟩ := p
    by_cases h1 : k = k'
    · simp [tomlInsert, h1]
    · by_cases h2 : strLt k k' <;> simp [tomlInsert, h1, h2, ih]

/-! ## C10: `write_toml` does not truncate -/

/-- C10 — `write_toml` opens the manifest file for read and write without
truncating it and writes the serialized document from position 0.  Hence
(1) the stored content is the new serialization followed by the old
content's bytes beyond the serialization's length, (2) the stored content
equals the new serialization **iff** the new serialization is at least as
long as the prior content (so trailing old bytes remain exactly when it is
shorter), and (3) the stored length is the maximum of the two lengths. -/
theorem write_toml_no_truncate (old : String) (v : Toml) :
    write_toml old v
      = serializeVal v ++ String.mk (old.data.drop (serializeVal v).length) ∧
    (write_toml old v = serializeVal v ↔ old.length ≤ (serializeVal v).length) ∧
    (write_toml old v).length = Nat.max (serializeVal v).length old.length := by
  simp only [write_toml]
  generalize serializeVal v = s
  obtain ⟨sd⟩ := s
  obtain ⟨od⟩ := old
  refine ⟨rfl, ?_, ?_⟩
  · show String.mk (sd ++ od.drop sd.length) = String.mk sd ↔ od.length ≤ sd.length
    rw [String.ext_iff]
    show sd ++ od.drop sd.length = sd ↔ od.length ≤ sd.length
    constructor
    · intro h
      have h2 := congrArg List.length h
      rw [List.length_append, List.length_drop] at h2
      omega
    · intro h
      rw [List.drop_eq_nil_of_le h, List.append_nil]
  · show (sd ++ od.drop sd.length).length = Nat.max sd.length od.length
    rw [List.length_append, List.length_drop]
    show sd.length + (od.length - sd.length) = max sd.length od.length
    rw [Nat.max_def]
    split <;> omega

/-! ## C2: personalizing the manifest -/

/-- C2 (amended) — for every manifest whose parsed document has a
`package` table, `edit_cargo_toml` succeeds and stores, via the
non-truncating `write_toml`, the serialization of the document in which
`package.name` is `projectName`, `package.authors` is the single-element
list containing the formatted identity, and every other field — of the
`package` table and of the top level — is unchanged; the stored **file**
therefore equals that serialization only up to the trailing bytes of the
old content that survive when the serialization is shorter (cf.
`write_toml_no_truncate`).  If the `package` entry is absent or not a
table, it fails with `TomlParseError` (the spec's `ManifestParseError`). -/
theorem edit_cargo_toml_amended :
    (∀ (fp contents pn an : String) (ae : Option String)
        (value t : List (String × Toml)),
      parseToml contents = some value →
      tomlLookup "package" value = some (.table t) →
      edit_cargo_toml fp contents pn an ae =
        .ok (write_toml contents (.table (tomlInsert value "package"
          (.table (tomlInsert (tomlInsert t "name" (.str pn)) "authors"
            (.arr [format_author an ae])))))) ∧
      tomlLookup "name" (tomlInsert (tomlInsert t "name" (.str pn)) "authors"
          (.arr [format_author an ae])) = some (.str pn) ∧
      tomlLookup "authors" (tomlInsert (tomlInsert t "name" (.str pn)) "authors"
          (.arr [format_author an ae])) = some (.arr [format_author an ae]) ∧
      (∀ k, k ≠ "package" →
        tomlLookup k (tomlInsert value "package"
          (.table (tomlInsert (tomlInsert t "name" (.str pn)) "authors"
            (.arr [format_author an ae])))) = tomlLookup k value) ∧
      (∀ k, k ≠ "name" → k ≠ "authors" →
        tomlLookup k (tomlInsert (tomlInsert t "name" (.str pn)) "authors"
          (.arr [format_author an ae])) = tomlLookup k t)) ∧
    (∀ (fp contents pn an : String) (ae : Option String)
        (value : List (String × Toml)),
      parseToml contents = some value →
      hasPackageTable value = false →
      edit_cargo_toml fp contents pn an ae = .error (.tomlParseError fp)) := by
  constructor
  · intro fp contents pn an ae value t hp hpkg
    refine ⟨?_, ?_, ?_, ?_, ?_⟩
    · simp only [edit_cargo_toml, hp, hpkg, tomlLookup_insert_self,
        tomlInsert_insert_same]
    · rw [tomlLookup_insert_other _ _ _ _ (by decide), tomlLookup_insert_self]
    · rw [tomlLookup_insert_self]
    · intro k hk
      rw [tomlLookup_insert_other _ _ _ _ hk]
    · intro k hk1 hk2
      rw [tomlLookup_insert_other _ _ _ _ hk2, tomlLookup_insert_other _ _ _ _ hk1]
  · intro fp contents pn an ae value hp hfalse
    unfold hasPackageTable at hfalse
    rcases hpk : tomlLookup "package" value with _ | v2
    · simp only [edit_cargo_toml, hp, hpk]
    · rw [hpk] at hfalse
      cases v2 <;> simp_all [edit_cargo_toml, hp, hpk]

/-- C2 (counterexample to the claim as stated) — `manifestSample` parses
to a document with a `package` table, personalization succeeds, yet the
stored file `personalizedSample` is not even a parseable manifest (the new
serialization is shorter than the old content, so trailing old bytes
remain): its fields are not preserved byte-identically. -/
theorem edit_cargo_toml_claim_counterexample :
    parseToml manifestSample = some manifestSampleDoc ∧
    tomlLookup "package" manifestSampleDoc = some (.table manifestSamplePkg) ∧
    edit_cargo_toml "Cargo.toml" manifestSample "foo" "Ada" (some "ada@example.com")
      = .ok personalizedSample ∧
    (parseToml personalizedSample).isNone = true :=
  ⟨rfl, rfl, rfl, by decide⟩

/-! ## `copy_dir` lemmas -/

theorem fsLookup_upsert_self (l : List (String × Fs)) (k : String) (v : Fs) :
    fsLookup k (upsert k v l) = some v := by
  induction l with
  | nil => simp [upsert, fsLookup]
  | cons p rest ih =>
    obtain ⟨k', v'⟩ := p
    by_cases h : k = k' <;> simp [upsert, fsLookup, h, ih]

theorem fsLookup_upsert_other (l : List (String × Fs)) (k k2 : String) (v : Fs)
    (h : k2 ≠ k) : fsLookup k2 (upsert k v l) = fsLookup k2 l := by
  induction l with
  | nil => simp [upsert, fsLookup, h]
  | cons p rest ih =>
    obtain ⟨k', v'⟩ := p
    by_cases h1 : k = k'
    · subst h1; simp [upsert, fsLookup, h]
    · by_cases h2 : k2 = k' <;> simp [upsert, fsLookup, h1, h2, ih]

/-- The copy loop computes the spec-level structural merge (and no error)
whenever the source listing is structurally compatible with the current
destination listing. -/
theorem copyEntries_eq_specMerge (es acc : List (String × Fs)) :
    compatEntries es acc = true → copyEntries es acc = (specMerge es acc, none) := by
  induction es, acc using copyEntries.induct with
  | case1 acc =>
    intro _
    rw [copyEntries.eq_def, specMerge.eq_def]
  | case2 e rest acc ih =>
    intro hc
    rw [compatEntries.eq_def] at hc
    simp at hc
    rw [copyEntries.eq_def, specMerge.eq_def]
    simp [ih hc]
  | case3 nm rest acc hnm es2 hlook sub e heq ih =>
    intro hc
    rw [compatEntries.eq_def] at hc
    simp [hnm, hlook] at hc
    have hs := ih hc.1
    rw [heq] at hs
    simp at hs
  | case4 nm rest acc hnm es2 hlook sub acc' heq ihsub ihrest =>
    intro hc
    have ihrest' : compatEntries rest (upsert nm (Fs.dir sub) acc) = true →
        copyEntries rest (upsert nm (Fs.dir sub) acc) =
          (specMerge rest (upsert nm (Fs.dir sub) acc), none) := ihrest
    rw [compatEntries.eq_def] at hc
    simp [hnm, hlook] at hc
    have hs := ihsub hc.1
    rw [heq] at hs
    injection hs with hs1 _
    subst hs1
    rw [copyEntries.eq_def, specMerge.eq_def]
    simp [hnm, hlook, heq]
    exact ihrest' hc.2
  | case5 nm rest acc hnm es2 bs hlook sub e heq ih =>
    intro hc
    rw [compatEntries.eq_def] at hc
    simp [hnm, hlook] at hc
    have hs := ih hc.1
    rw [heq] at hs
    simp at hs
  | case6 nm rest acc hnm es2 bs hlook sub acc' heq ihsub ihrest =>
    intro hc
    have ihrest' : compatEntries rest (upsert nm (Fs.dir sub) acc) = true →
        copyEntries rest (upsert nm (Fs.dir sub) acc) =
          (specMerge rest (upsert nm (Fs.dir sub) acc), none) := ihrest
    rw [compatEntries.eq_def] at hc
    simp [hnm, hlook] at hc
    have hs := ihsub hc.1
    rw [heq] at hs
    injection hs with hs1 _
    subst hs1
    rw [copyEntries.eq_def, specMerge.eq_def]
    simp [hnm, hlook, heq]
    exact ihrest' hc.2
  | case7 nm rest acc hnm es2 val hval hlook =>
    intro hc
    rw [compatEntries.eq_def] at hc
    cases val with
    | dir bs => exact absurd rfl (hval bs)
    | file c => simp [hnm, hlook] at hc
    | special => simp [hnm, hlook] at hc
  | case8 nm rest acc hnm c bs hlook =>
    intro hc
    rw [compatEntries.eq_def] at hc
    simp [hnm, hlook] at hc
  | case9 nm rest acc hnm c hlook =>
    intro hc
    rw [compatEntries.eq_def] at hc
    simp [hnm, hlook] at hc
  | case10 nm rest acc hnm c hnotdir hnotspec ih =>
    intro hc
    rw [compatEntries.eq_def] at hc
    rw [copyEntries.eq_def, specMerge.eq_def]
    rcases hl : fsLookup nm acc with _ | v
    · simp [hnm, hl] at hc ⊢
      exact ih hc
    · cases v with
      | dir bs => exact absurd hl (fun h => hnotdir bs h)
      | file c2 =>
        simp [hnm, hl] at hc ⊢
        exact ih hc
      | special => exact absurd hl hnotspec
  | case11 nm rest acc hnm ih =>
    intro hc
    rw [compatEntries.eq_def] at hc
    simp [hnm] at hc
    rw [copyEntries.eq_def, specMerge.eq_def]
    simp [hnm, ih hc]

/-- Entry `.git` is never copied: the merge leaves the destination's `.git` entry
(if any) exactly as it was. -/
theorem specMerge_lookup_git (es base : List (String × Fs)) :
    fsLookup ".git" (specMerge es base) = fsLookup ".git" base := by
  induction es, base using specMerge.induct with
  | case1 base => rw [specMerge.eq_def]
  | case2 e rest base ih =>
    rw [specMerge.eq_def]
    simpa using ih
  | case3 nm rest base hnm es2 bs hlook ihsub ihrest =>
    rw [specMerge.eq_def]
    simp only [hnm, hlook, if_neg, ite_false]
    rw [ihrest, fsLookup_upsert_other _ _ _ _ (fun h => hnm h.symm)]
  | case4 nm rest base hnm es2 hnotdir ihsub ihrest =>
    rw [specMerge.eq_def]
    rcases hl : fsLookup nm base with _ | v
    · simp only [hnm, hl, if_neg, ite_false]
      rw [ihrest, fsLookup_upsert_other _ _ _ _ (fun h => hnm h.symm)]
    · cases v with
      | dir bs => exact absurd hl (fun h => hnotdir bs h)
      | file c =>
        simp only [hnm, hl, if_neg, ite_false]
        rw [ihrest, fsLookup_upsert_other _ _ _ _ (fun h => hnm h.symm)]
      | special =>
        simp only [hnm, hl, if_neg, ite_false]
        rw [ihrest, fsLookup_upsert_other _ _ _ _ (fun h => hnm h.symm)]
  | case5 nm rest base hnm c ihrest =>
    rw [specMerge.eq_def]
    simp only [hnm, if_neg, ite_false]
    rw [ihrest, fsLookup_upsert_other _ _ _ _ (fun h => hnm h.symm)]
  | case6 nm rest base hnm ihrest =>
    rw [specMerge.eq_def]
    simpa [hnm] using ihrest

/-- Frame: a name that does not occur in the source listing keeps its
destination binding. -/
theorem specMerge_frame (k : String) (es base : List (String × Fs)) :
    fsLookup k es = none → fsLookup k (specMerge es base) = fsLookup k base := by
  induction es, base using specMerge.induct with
  | case1 base => intro _; rw [specMerge.eq_def]
  | case2 e rest base ih =>
    intro hk
    rw [fsLookup.eq_def] at hk
    by_cases h : k = ".git"
    · simp [h] at hk
    · simp only [if_neg h] at hk
      rw [specMerge.eq_def]
      simpa using ih hk
  | case3 nm rest base hnm es2 bs hlook ihsub ihrest =>
    intro hk
    rw [fsLookup.eq_def] at hk
    by_cases h : k = nm
    · simp [h] at hk
    · simp only [if_neg h] at hk
      rw [specMerge.eq_def]
      simp only [hnm, hlook, if_neg, ite_false]
      rw [ihrest hk, fsLookup_upsert_other _ _ _ _ h]
  | case4 nm rest base hnm es2 hnotdir ihsub ihrest =>
    intro hk
    rw [fsLookup.eq_def] at hk
    by_cases h : k = nm
    · simp [h] at hk
    · simp only [if_neg h] at hk
      rw [specMerge.eq_def]
      rcases hl : fsLookup nm base with _ | v
      · simp only [hnm, hl, if_neg, ite_false]
        rw [ihrest hk, fsLookup_upsert_other _ _ _ _ h]
      · cases v with
        | dir bs => exact absurd hl (fun hh => hnotdir bs hh)
        | file c =>
          simp only [hnm, hl, if_neg, ite_false]
          rw [ihrest hk, fsLookup_upsert_other _ _ _ _ h]
        | special =>
          simp only [hnm, hl, if_neg, ite_false]
          rw [ihrest hk, fsLookup_upsert_other _ _ _ _ h]
  | case5 nm rest base hnm c ihrest =>
    intro hk
    rw [fsLookup.eq_def] at hk
    by_cases h : k = nm
    · simp [h] at hk
    · simp only [if_neg h] at hk
      rw [specMerge.eq_def]
      simp only [hnm, if_neg, ite_false]
      rw [ihrest hk, fsLookup_upsert_other _ _ _ _ h]
  | case6 nm rest base hnm ihrest =>
    intro hk
    rw [fsLookup.eq_def] at hk
    by_cases h : k = nm
    · simp [h] at hk
    · simp only [if_neg h] at hk
      rw [specMerge.eq_def]
      simpa [hnm] using ihrest hk

/-- A key that is not among the listing's names has no binding. -/
theorem fsLookup_none_of_not_mem (k : String) (es : List (String × Fs))
    (h : k ∉ es.map Prod.fst) : fsLookup k es = none := by
  induction es with
  | nil => rfl
  | cons p rest ih =>
    obtain ⟨k', v⟩ := p
    simp only [List.map_cons, List.mem_cons] at h
    push_neg at h
    rw [fsLookup.eq_def]
    simp only [if_neg h.1]
    exact ih h.2

/-- A non-`.git` regular file of the source ends up, byte-identical, in the
merged destination (for a well-formed source listing with distinct names). -/
theorem specMerge_lookup_file (nm c : String) (es base : List (String × Fs)) :
    (es.map Prod.fst).Nodup → nm ≠ ".git" → fsLookup nm es = some (.file c) →
    fsLookup nm (specMerge es base) = some (.file c) := by
  induction es, base using specMerge.induct with
  | case1 base =>
    intro _ _ hfind
    rw [fsLookup.eq_def] at hfind
    exact absurd hfind (by simp)
  | case2 e rest base ih =>
    intro hnd hgit hfind
    rw [fsLookup.eq_def] at hfind
    simp only [if_neg hgit] at hfind
    simp only [List.map_cons, List.nodup_cons] at hnd
    rw [specMerge.eq_def]
    simp only [if_pos rfl]
    exact ih hnd.2 hgit hfind
  | case3 k rest base hk es2 bs hlook ihsub ihrest =>
    intro hnd hgit hfind
    rw [fsLookup.eq_def] at hfind
    simp only [List.map_cons, List.nodup_cons] at hnd
    by_cases h : nm = k
    · simp only [if_pos h] at hfind
      exact absurd hfind (by simp)
    · simp only [if_neg h] at hfind
      rw [specMerge.eq_def]
      simp only [if_neg hk, hlook]
      exact ihrest hnd.2 hgit hfind
  | case4 k rest base hk es2 hnotdir ihsub ihrest =>
    intro hnd hgit hfind
    rw [fsLookup.eq_def] at hfind
    simp only [List.map_cons, List.nodup_cons] at hnd
    by_cases h : nm = k
    · simp only [if_pos h] at hfind
      exact absurd hfind (by simp)
    · simp only [if_neg h] at hfind
      rw [specMerge.eq_def]
      rcases hl : fsLookup k base with _ | v
      · simp only [if_neg hk, hl]
        exact ihrest hnd.2 hgit hfind
      · cases v with
        | dir bs => exact absurd hl (fun hh => hnotdir bs hh)
        | file c2 =>
          simp only [if_neg hk, hl]
          exact ihrest hnd.2 hgit hfind
        | special =>
          simp only [if_neg hk, hl]
          exact ihrest hnd.2 hgit hfind
  | case5 k rest base hk c2 ihrest =>
    intro hnd hgit hfind
    rw [fsLookup.eq_def] at hfind
    simp only [List.map_cons, List.nodup_cons] at hnd
    by_cases h : nm = k
    · simp only [if_pos h] at hfind
      have hc2 : c2 = c := by
        injection hfind with hf
        injection hf
      subst hc2
      subst h
      rw [specMerge.eq_def]
      simp only [if_neg hk]
      rw [specMerge_frame nm rest _ (fsLookup_none_of_not_mem nm rest hnd.1),
        fsLookup_upsert_self]
    · simp only [if_neg h] at hfind
      rw [specMerge.eq_def]
      simp only [if_neg hk]
      exact ihrest hnd.2 hgit hfind
  | case6 k rest base hk ihrest =>
    intro hnd hgit hfind
    rw [fsLookup.eq_def] at hfind
    simp only [List.map_cons, List.nodup_cons] at hnd
    by_cases h : nm = k
    · simp only [if_pos h] at hfind
      exact absurd hfind (by simp)
    · simp only [if_neg h] at hfind
      rw [specMerge.eq_def]
      simp only [if_neg hk]
      exact ihrest hnd.2 hgit hfind

/-- A source entry that is neither a regular file nor a directory is skipped:
the destination binding of its name is untouched (for a source listing with
distinct names). -/
theorem specMerge_lookup_special (nm : String) (es base : List (String × Fs)) :
    (es.map Prod.fst).Nodup → nm ≠ ".git" → fsLookup nm es = some .special →
    fsLookup nm (specMerge es base) = fsLookup nm base := by
  induction es, base using specMerge.induct with
  | case1 base =>
    intro _ _ hfind
    rw [fsLookup.eq_def] at hfind
    exact absurd hfind (by simp)
  | case2 e rest base ih =>
    intro hnd hgit hfind
    rw [fsLookup.eq_def] at hfind
    simp only [if_neg hgit] at hfind
    simp only [List.map_cons, List.nodup_cons] at hnd
    rw [specMerge.eq_def]
    simp only [if_pos rfl]
    exact ih hnd.2 hgit hfind
  | case3 k rest base hk es2 bs hlook ihsub ihrest =>
    intro hnd hgit hfind
    rw [fsLookup.eq_def] at hfind
    simp only [List.map_cons, List.nodup_cons] at hnd
    by_cases h : nm = k
    · simp only [if_pos h] at hfind
      exact absurd hfind (by simp)
    · simp only [if_neg h] at hfind
      rw [specMerge.eq_def]
      simp only [if_neg hk, hlook]
      rw [ihrest hnd.2 hgit hfind, fsLookup_upsert_other _ _ _ _ h]
  | case4 k rest base hk es2 hnotdir ihsub ihrest =>
    intro hnd hgit hfind
    rw [fsLookup.eq_def] at hfind
    simp only [List.map_cons, List.nodup_cons] at hnd
    by_cases h : nm = k
    · simp only [if_pos h] at hfind
      exact absurd hfind (by simp)
    · simp only [if_neg h] at hfind
      rw [specMerge.eq_def]
      rcases hl : fsLookup k base with _ | v
      · simp only [if_neg hk, hl]
        rw [ihrest hnd.2 hgit hfind, fsLookup_upsert_other _ _ _ _ h]
      · cases v with
        | dir bs => exact absurd hl (fun hh => hnotdir bs hh)
        | file c2 =>
          simp only [if_neg hk, hl]
          rw [ihrest hnd.2 hgit hfind, fsLookup_upsert_other _ _ _ _ h]
        | special =>
          simp only [if_neg hk, hl]
          rw [ihrest hnd.2 hgit hfind, fsLookup_upsert_other _ _ _ _ h]
  | case5 k rest base hk c2 ihrest =>
    intro hnd hgit hfind
    rw [fsLookup.eq_def] at hfind
    simp only [List.map_cons, List.nodup_cons] at hnd
    by_cases h : nm = k
    · simp only [if_pos h] at hfind
      exact absurd hfind (by simp)
    · simp only [if_neg h] at hfind
      rw [specMerge.eq_def]
      simp only [if_neg hk]
      rw [ihrest hnd.2 hgit hfind, fsLookup_upsert_other _ _ _ _ h]
  | case6 k rest base hk ihrest =>
    intro hnd hgit hfind
    rw [fsLookup.eq_def] at hfind
    simp only [List.map_cons, List.nodup_cons] at hnd
    by_cases h : nm = k
    · subst h
      rw [specMerge.eq_def]
      simp only [if_neg hk]
      exact specMerge_frame nm rest base (fsLookup_none_of_not_mem nm rest hnd.1)
    · simp only [if_neg h] at hfind
      rw [specMerge.eq_def]
      simp only [if_neg hk]
      exact ihrest hnd.2 hgit hfind

/-! ## C3 and C8: `copy_dir` -/

/-- C3 — for a source that exists and is a directory, and a destination
the source is structurally compatible with (no entry of the source collides
with a pre-existing destination entry of a different kind — these
collisions are I/O errors in the code), `copy_dir` terminates without error
and the destination is exactly the spec-level structural merge `specMerge`:
every entry of the source is copied over the destination, except that any
entry literally named `.git` is skipped entirely (the destination's `.git`
binding is untouched), names absent from the source keep their destination
bindings, regular files are copied byte-for-byte (overwriting pre-existing
destination files), and special entries are skipped non-fatally. -/
theorem copy_dir_copies (p : Path) (es : List (String × Fs)) (dst : Option Fs)
    (base : List (String × Fs))
    (hb : ensureDir dst = Except.ok base)
    (hc : compatEntries es base = true) :
    copy_dir p (some (.dir es)) dst = (some (.dir (specMerge es base)), none) ∧
    fsLookup ".git" (specMerge es base) = fsLookup ".git" base ∧
    (∀ nm, fsLookup nm es = none →
      fsLookup nm (specMerge es base) = fsLookup nm base) ∧
    (∀ nm c, (es.map Prod.fst).Nodup → nm ≠ ".git" →
      fsLookup nm es = some (.file c) →
      fsLookup nm (specMerge es base) = some (.file c)) ∧
    (∀ nm, (es.map Prod.fst).Nodup → nm ≠ ".git" →
      fsLookup nm es = some .special →
      fsLookup nm (specMerge es base) = fsLookup nm base) := by
  refine ⟨?_, specMerge_lookup_git es base,
    fun nm h => specMerge_frame nm es base h,
    fun nm c hnd hgit hfind => specMerge_lookup_file nm c es base hnd hgit hfind,
    fun nm hnd hgit hfind => specMerge_lookup_special nm es base hnd hgit hfind⟩
  simp only [copy_dir, hb, copyEntries_eq_specMerge es base hc]

/-- Witness: copying the concrete `sampleTemplateTree` into an absent
destination succeeds, and its README file is present afterwards. -/
theorem copy_dir_copies_witness :
    copy_dir ["tmpl"] (some (.dir sampleTemplateTree)) none =
      (some (.dir (specMerge sampleTemplateTree [])), none) ∧
    fsLookup "README.md" (specMerge sampleTemplateTree []) =
      some (.file "readme") := by
  have h := copy_dir_copies ["tmpl"] sampleTemplateTree none [] rfl
    (by simp [sampleTemplateTree, compatEntries.eq_def, fsLookup, upsert,
      specMerge.eq_def])
  exact ⟨h.1, h.2.2.2.1 "README.md" "readme" (by decide) (by decide) rfl⟩

/-- C8 — when the source path does not exist or is not a directory,
`copy_dir` fails with `SourceDoesNotExist` (the spec's `SourceMissing`)
carrying the rendered source path, and the destination is left exactly as
it was: nothing is created and nothing is copied. -/
theorem copy_dir_source_missing (p : Path) (src dst : Option Fs)
    (h : isDirFs src = false) :
    copy_dir p src dst = (dst, some (.sourceDoesNotExist (pathToString p))) := by
  rcases src with _ | s
  · rfl
  · cases s with
    | dir es => simp [isDirFs] at h
    | file c => rfl
    | special => rfl

/-- Witness: copying from a non-existent source next to an existing
destination leaves the destination untouched and reports `SourceMissing`. -/
theorem copy_dir_source_missing_witness :
    copy_dir ["missing"] none (some (.dir [("keep", .file "k")])) =
      (some (.dir [("keep", .file "k")]),
       some (.sourceDoesNotExist "missing")) :=
  copy_dir_source_missing ["missing"] none (some (.dir [("keep", .file "k")])) rfl

/-- Witness instantiating `edit_cargo_toml_amended` on a concrete manifest. -/
theorem edit_cargo_toml_amended_witness :
    edit_cargo_toml "Cargo.toml" manifestSample "foo" "Ada" (some "ada@example.com") =
      .ok (write_toml manifestSample (.table (tomlInsert manifestSampleDoc "package"
        (.table (tomlInsert (tomlInsert manifestSamplePkg "name" (.str "foo")) "authors"
          (.arr [format_author "Ada" (some "ada@example.com")])))))) :=
  (edit_cargo_toml_amended.1 "Cargo.toml" manifestSample "foo" "Ada"
    (some "ada@example.com") manifestSampleDoc manifestSamplePkg rfl rfl).1

/-! ## C4: identity resolution order -/

/-- C4 (counterexample to the claim as stated) — in an environment where
only `USERNAME` is set, on a non-Windows platform, the claim's chain (one
platform-appropriate login-name variable, `USER` off Windows, then the
display-name variable `NAME`) yields no name — so the claim predicts a
`NameUnresolved` failure — yet the code resolves the name `bob`, because it
always tries `USER`, `USERNAME` **and** `NAME` on every platform. -/
theorem identity_claim_counterexample :
    specIdentityName envUsernameOnly none false = none ∧
    get_name_and_email envUsernameOnly none false = .ok ("bob", none) :=
  ⟨rfl, rfl⟩

/-- C4 (amended) — name resolution tries, in order: `CARGO_NAME`,
`GIT_AUTHOR_NAME`, `GIT_COMMITTER_NAME`, the git-config `user.name`, then
`USER`, `USERNAME` and `NAME` on **every** platform (the platform only
selects which variable the `UserError` message names); the first value
found wins, the absence of all of them is the `UserError` failure, and the
returned name and email are whitespace-trimmed.  Email resolution is the
analogous chain `CARGO_EMAIL`, `GIT_AUTHOR_EMAIL`, `GIT_COMMITTER_EMAIL`,
git-config `user.email`, `EMAIL`. -/
theorem get_name_and_email_order (env : String → Option String)
    (gitcfg : Option (String → Option String)) (windows : Bool) :
    get_name_and_email env gitcfg windows =
      match ((((env "CARGO_NAME").orElse (fun _ => env "GIT_AUTHOR_NAME")).orElse
          (fun _ => env "GIT_COMMITTER_NAME")).orElse
          (fun _ => gitcfg.bind (fun g => g "user.name"))).orElse
          (fun _ => ((env "USER").orElse (fun _ => env "USERNAME")).orElse
            (fun _ => env "NAME")) with
      | none => .error (.userError (if windows then "USERNAME" else "USER"))
      | some name =>
        .ok (strTrim name,
          (((((env "CARGO_EMAIL").orElse (fun _ => env "GIT_AUTHOR_EMAIL")).orElse
            (fun _ => env "GIT_COMMITTER_EMAIL")).orElse
            (fun _ => gitcfg.bind (fun g => g "user.email"))).orElse
            (fun _ => env "EMAIL")).map strTrim) := by
  have gev3 : ∀ (a b c : String), get_environment_variable [a, b, c] env =
      ((env a).orElse (fun _ => env b)).orElse (fun _ => env c) := by
    intro a b c
    rcases ha : env a with _ | va <;> rcases hb : env b with _ | vb <;>
      rcases hc : env c with _ | vc <;>
      simp [get_environment_variable, List.filterMap, Option.orElse, ha, hb, hc]
  have gev1 : ∀ (a : String), get_environment_variable [a] env = env a := by
    intro a
    rcases ha : env a with _ | va <;>
      simp [get_environment_variable, List.filterMap, Option.orElse, ha]
  simp only [get_name_and_email, gev3, gev1]

/-! ## C1: offline mode still clones a missing index -/

/-- C1 (code-bug evidence) — with `frozen = true` (the `--frozen` flag,
whose own help text asserts the network must not be touched) and no local
index cache directory, `update_or_clone` still reaches `clone_index` and
performs the network clone of the index repository — whether the clone
fails or succeeds; only when the cache directory already exists does frozen
mode avoid the fetch. -/
theorem update_or_clone_clones_when_frozen :
    (update_or_clone ["home", "cargo-template", "index"] DEFAULT_INDEX true
      { indexRepoExistsIsDir := false, cloneSucceeds := false, indexFile := none }).2
      = [.gitCloneIndex DEFAULT_INDEX] ∧
    (update_or_clone ["home", "cargo-template", "index"] DEFAULT_INDEX true
      { indexRepoExistsIsDir := false, cloneSucceeds := true, indexFile := none }).2
      = [.gitCloneIndex DEFAULT_INDEX] ∧
    (update_or_clone ["home", "cargo-template", "index"] DEFAULT_INDEX true
      { indexRepoExistsIsDir := true, cloneSucceeds := true, indexFile := none }).2
      = [] :=
  ⟨rfl, rfl, rfl⟩

/-! ## C5: failed clone of a missing index is fatal -/

/-- C5 — when no local index cache directory exists and the clone of the
index repository fails, `get_index` fails, and the surfaced error is
`GenericError` — the error the code raises at "Could not find an index",
which the spec's taxonomy names `IndexUnavailable`. -/
theorem get_index_unavailable (cfg : Config) (frozen : Bool) (w : GitWorld)
    (h1 : w.indexRepoExistsIsDir = false) (h2 : w.cloneSucceeds = false)
    (h3 : cfg.resolved_index_path = none) :
    (get_index cfg frozen w).1 = .error .genericError := by
  simp [get_index, update_or_clone, h1, h2, h3]

/-- Witness for `get_index_unavailable` on a concrete configuration. -/
theorem get_index_unavailable_witness :
    (get_index sampleConfig true
      { indexRepoExistsIsDir := false, cloneSucceeds := false, indexFile := none }).1
      = .error .genericError :=
  get_index_unavailable sampleConfig true _ rfl rfl rfl

/-! ## C6: the index mapping -/

theorem hmFind_hmInsert_self (m : HMap) (k v : String) :
    hmFind k (hmInsert m k v) = some v := by
  induction m with
  | nil => simp [hmInsert, hmFind]
  | cons p rest ih =>
    obtain ⟨k', v'⟩ := p
    by_cases h : k = k' <;> simp [hmInsert, hmFind, h, ih]

theorem hmFind_hmInsert_other (m : HMap) (k k2 v : String) (h : k2 ≠ k) :
    hmFind k2 (hmInsert m k v) = hmFind k2 m := by
  induction m with
  | nil => simp [hmInsert, hmFind, h]
  | cons p rest ih =>
    obtain ⟨k', v'⟩ := p
    by_cases h1 : k = k'
    · subst h1; simp [hmInsert, hmFind, h]
    · by_cases h2 : k2 = k' <;> simp [hmInsert, hmFind, h1, h2, ih]

theorem hmInsert_eq_append (m : HMap) (k v : String) (h : hmFind k m = none) :
    hmInsert m k v = m ++ [(k, v)] := by
  induction m with
  | nil => rfl
  | cons p rest ih =>
    obtain ⟨k', v'⟩ := p
    rw [hmFind.eq_def] at h
    by_cases h1 : k = k'
    · simp [h1] at h
    · simp only [if_neg h1] at h
      simp [hmInsert, h1, ih h]

theorem lastFind_cons (k k' v' : String) (rest : List (String × String)) :
    lastFind k ((k', v') :: rest) =
      (match lastFind k rest with
       | some v2 => some v2
       | none => if k = k' then some v' else none) := rfl

/-- Folding pairs into the map makes the **last** binding of each key win. -/
theorem hmFind_foldl (l : List (String × String)) : ∀ (acc : HMap) (k : String),
    hmFind k (l.foldl (fun m p => hmInsert m p.1 p.2) acc) =
      (match lastFind k l with
       | some v => some v
       | none => hmFind k acc) := by
  induction l with
  | nil => intro acc k; rfl
  | cons p rest ih =>
    intro acc k
    obtain ⟨k', v'⟩ := p
    rw [List.foldl_cons, ih, lastFind_cons]
    rcases hlast : lastFind k rest with _ | v2
    · simp only [hlast]
      by_cases h : k = k'
      · subst h
        simp [hmFind_hmInsert_self]
      · simp [h, hmFind_hmInsert_other _ _ _ _ h]
    · simp only [hlast]

theorem hmFind_collect (l : List (String × String)) (k : String) :
    hmFind k (collectHashMap l) = lastFind k l := by
  rw [collectHashMap, hmFind_foldl]
  rcases lastFind k l with _ | v <;> rfl

/-- With distinct names, collecting into the map is the identity. -/
theorem collect_of_nodup (l : List (String × String))
    (h : (l.map Prod.fst).Nodup) : collectHashMap l = l := by
  suffices hgen : ∀ (acc : HMap), (l.map Prod.fst).Nodup →
      (∀ k2, k2 ∈ l.map Prod.fst → hmFind k2 acc = none) →
      l.foldl (fun m p => hmInsert m p.1 p.2) acc = acc ++ l by
    have := hgen [] h (fun k2 _ => rfl)
    simpa [collectHashMap] using this
  clear h
  induction l with
  | nil => intro acc _ _; simp
  | cons p rest ih =>
    intro acc hnd hfresh
    obtain ⟨k, v⟩ := p
    simp only [List.map_cons, List.nodup_cons] at hnd
    rw [List.foldl_cons, ih (hmInsert acc k v) hnd.2 ?fresh,
      hmInsert_eq_append acc k v (hfresh k (by simp)), List.append_assoc]
    · rfl
    case fresh =>
      intro k2 hk2
      have hne : k2 ≠ k := fun he => hnd.1 (he ▸ hk2)
      rw [hmFind_hmInsert_other _ _ _ _ hne]
      exact hfresh k2 (by simp [hk2])

/-- Draining `IndexIter` from cursor `n` with enough fuel lists the members
from position `n` on, in file order. -/
theorem drainIter_eq (fuel : Nat) : ∀ (n : Nat) (top : IndexTopLevel),
    top.index.length ≤ n + fuel →
    drainIter fuel ⟨n, top⟩ = (top.index.drop n).map (fun m => (m.name, m.loc)) := by
  induction fuel with
  | zero =>
    intro n top h
    rw [List.drop_eq_nil_of_le (by omega)]
    rfl
  | succ fuel ih =>
    intro n top h
    rcases hg : top.index[n]? with _ | m
    · have hlen : top.index.length ≤ n := by
        by_contra hlt
        rw [List.getElem?_eq_getElem (by omega)] at hg
        exact Option.noConfusion hg
      rw [List.drop_eq_nil_of_le hlen]
      simp [drainIter, IndexIter.step, List.get?_eq_getElem?, hg]
    · have hlt : n < top.index.length := by
        by_contra hge
        rw [List.getElem?_eq_none (by omega)] at hg
        exact Option.noConfusion hg
      have hdrop : top.index.drop n = top.index[n] :: top.index.drop (n + 1) :=
        List.drop_eq_getElem_cons hlt
      have hm : top.index[n] = m := by
        rw [List.getElem?_eq_getElem hlt] at hg
        exact Option.some.inj hg
      rw [hdrop, hm]
      simp only [drainIter, IndexIter.step, List.get?_eq_getElem?, hg,
        Option.map_some', List.map_cons]
      rw [ih (n + 1) top (by omega)]

/-- Collecting `into_iter().collect::<Vec<_>>()` equals the member list in file order. -/
theorem intoIterList_eq (top : IndexTopLevel) :
    intoIterList top = top.index.map (fun m => (m.name, m.loc)) := by
  rw [intoIterList, drainIter_eq (top.index.length + 1) 0 top (by omega),
    List.drop_zero]

/-- C6 — with a cached index checkout and a valid membership document,
`get_index` returns exactly the collected mapping of the document's
(name, loc) pairs; for every name the mapping holds the **last** listed
location; and when the names are distinct the mapping is exactly the
input pair list (in particular its size is the record count). -/
theorem get_index_mapping (cfg : Config) (frozen : Bool) (w : GitWorld)
    (top : IndexTopLevel)
    (h1 : w.indexRepoExistsIsDir = true)
    (h2 : w.indexFile = some (some top)) :
    (get_index cfg frozen w).1 =
      .ok (collectHashMap (top.index.map (fun m => (m.name, m.loc)))) ∧
    (∀ k, hmFind k (collectHashMap (top.index.map (fun m => (m.name, m.loc)))) =
      lastFind k (top.index.map (fun m => (m.name, m.loc)))) ∧
    (((top.index.map (fun m => (m.name, m.loc))).map Prod.fst).Nodup →
      collectHashMap (top.index.map (fun m => (m.name, m.loc))) =
        top.index.map (fun m => (m.name, m.loc)) ∧
      (collectHashMap (top.index.map (fun m => (m.name, m.loc)))).length =
        top.index.length) := by
  refine ⟨?_, fun k => hmFind_collect _ k, fun hnd => ?_⟩
  · simp [get_index, update_or_clone, h1, h2, intoIterList_eq]
  · refine ⟨collect_of_nodup _ hnd, ?_⟩
    rw [collect_of_nodup _ hnd, List.length_map]

/-- Witness for `get_index_mapping` on a concrete document with a duplicated
name: the mapping holds the last-listed location. -/
theorem get_index_mapping_witness :
    (get_index sampleConfig false
      { indexRepoExistsIsDir := true, cloneSucceeds := true,
        indexFile := some (some sampleIndex) }).1 =
      .ok (collectHashMap (sampleIndex.index.map (fun m => (m.name, m.loc)))) ∧
    hmFind "tmpl-a" (collectHashMap (sampleIndex.index.map (fun m => (m.name, m.loc))))
      = some "urlA2" := by
  have h := get_index_mapping sampleConfig false
    { indexRepoExistsIsDir := true, cloneSucceeds := true,
      indexFile := some (some sampleIndex) } sampleIndex rfl rfl
  exact ⟨h.1, (h.2.1 "tmpl-a").trans rfl⟩

/-! ## C7: template store resolution -/

/-- C7 — whenever the cache location `templates_dir/name` already exists,
`get_template` returns that path unchanged with no effect at all (no
freshness check, no refresh, no fetch) for any `frozen`; and when the
location is absent in frozen (offline) mode it fails with
`TemplateNotFound(name)`, again with no effect. -/
theorem get_template_contract (name url : String) (templates_dir : Path)
    (frozen : Bool) :
    get_template name url templates_dir frozen true
      = (.ok (templates_dir ++ [name]), []) ∧
    get_template name url templates_dir true false
      = (.error (.templateNotFound name), []) :=
  ⟨rfl, rfl⟩

/-! ## C9: existing destination rejected before any effect -/

/-- C9 — when the destination directory (current working directory
joined with the project name) already exists, `main` fails with
`ExistsError` (the spec's `ProjectExists`) and its effect trace is empty:
no cache directory is created, no index is resolved or cloned, nothing is
copied. -/
theorem main_project_exists (frozen : Bool) (template project_name : String)
    (w : World) (cwd : Path)
    (h1 : w.cwd = some cwd) (h2 : w.projectDirExists = true) :
    main frozen template project_name w =
      (.error (.existsError (pathToString (cwd ++ [project_name]))), []) := by
  simp [main, h1, h2]

/-- Witness for `main_project_exists` on a concrete world. -/
theorem main_project_exists_witness :
    main false "tmpl" "proj" sampleWorldExisting =
      (.error (.existsError (pathToString (["home"] ++ ["proj"]))), []) :=
  main_project_exists false "tmpl" "proj" sampleWorldExisting ["home"] rfl rfl

end CargoTemplate
